import Mathlib

/-!
Shallow embedding of the cache and ledger core of src/main.py
(a Discord whitelist bot with a point ledger).  The global mutable
state (WHITELIST_CACHE, POINTS_CACHE) is passed explicitly; the
fire-and-forget background sync calls are recorded as a boolean flag
in the results; HTTP round trips are modelled as an explicit outcome
value handed to the load functions.
-/

/-- An element of WHITELIST_CACHE: in the source it is the dict built
in add_uid_entry with keys uid, expiry_date and comment. -/
structure Entry where
  uid : String
  expiry_date : String
  comment : String
  deriving Repr, DecidableEq

/-- POINTS_PER_DAY = 5 in the source (1 day = 5 points). -/
def POINTS_PER_DAY : Int := 5

/-- POINTS_CACHE: a Python dict from user id strings to integer
points, modelled as an association list with at most one binding per
key (dict assignment keeps the position of an existing binding, as
dictSet below does). -/
abbrev PointsCache := List (String × Int)

/-- The dict lookup POINTS_CACHE.get(user_id, 0) performed by
get_user_points in the source, defaulting to 0 for unknown users. -/
def get_user_points (c : PointsCache) (u : String) : Int :=
  match c.find? (fun p => p.1 == u) with
  | some p => p.2
  | none => 0

/-- Python dict assignment POINTS_CACHE[user_id] = v: overwrite the
existing binding in place if present, otherwise add a new one. -/
def dictSet (c : PointsCache) (u : String) (v : Int) : PointsCache :=
  match c with
  | [] => [(u, v)]
  | p :: rest => if p.1 == u then (u, v) :: rest else p :: dictSet rest u v

/-- Result of add_user_points: the mutated POINTS_CACHE, the returned
new balance, and whether sync_points_in_background was triggered
(in the source the add path always triggers it). -/
structure CreditResult where
  cache : PointsCache
  balance : Int
  synced : Bool
  deriving Repr, DecidableEq

/-- add_user_points from the source: read the current balance with
default 0, store current + amount, trigger the background sync and
return the new balance. -/
def add_user_points (c : PointsCache) (u : String) (amount : Int) : CreditResult :=
  let current := get_user_points c u
  let new_balance := current + amount
  { cache := dictSet c u new_balance, balance := new_balance, synced := true }

/-- Result of deduct_user_points: the POINTS_CACHE after the call,
the returned (success, remaining_balance) pair, and whether
sync_points_in_background was triggered. -/
structure DeductResult where
  cache : PointsCache
  success : Bool
  balance : Int
  synced : Bool
  deriving Repr, DecidableEq

/-- deduct_user_points from the source: read the current balance with
default 0; if current < amount return (False, current) without
touching the cache and without syncing; otherwise store
current - amount, trigger the background sync and return
(True, new_balance). -/
def deduct_user_points (c : PointsCache) (u : String) (amount : Int) : DeductResult :=
  let current := get_user_points c u
  if current < amount then
    { cache := c, success := false, balance := current, synced := false }
  else
    let new_balance := current - amount
    { cache := dictSet c u new_balance, success := true, balance := new_balance, synced := true }

/-- calculate_points_needed from the source: days * POINTS_PER_DAY. -/
def calculate_points_needed (days : Int) : Int :=
  days * POINTS_PER_DAY

/-- get_uid_entry from the source: linear scan of WHITELIST_CACHE,
returning a copy of the first entry whose uid field matches, or None.
Copying is identity under value semantics. -/
def get_uid_entry (cache : List Entry) (uid : String) : Option Entry :=
  match cache with
  | [] => none
  | e :: rest => if e.uid == uid then some e else get_uid_entry rest uid

/-- add_uid_entry from the source: scan for the first index whose uid
matches (the enumerate loop with break); replace the entry at that
index by the freshly built dict, or append it when no index matched.
The source then always triggers the background sync and returns
True, so only the mutated cache is returned here. -/
def add_uid_entry (cache : List Entry) (uid expiry comment : String) : List Entry :=
  match cache with
  | [] => [{ uid := uid, expiry_date := expiry, comment := comment }]
  | e :: rest =>
    if e.uid == uid then { uid := uid, expiry_date := expiry, comment := comment } :: rest
    else e :: add_uid_entry rest uid expiry comment

/-- remove_uid_entry from the source: rebuild the cache keeping the
entries whose uid differs, and report removal exactly when the length
changed (the sync is triggered exactly when the flag is true). -/
def remove_uid_entry (cache : List Entry) (uid : String) : List Entry × Bool :=
  let newCache := cache.filter (fun e => e.uid != uid)
  (newCache, newCache.length != cache.length)

/-- The second for loop of change_uid_entry: walk the cache and set
the uid field of the first entry matching old_uid to new_uid,
returning none when no entry matches (the loop falls through). -/
def renameFirst (cache : List Entry) (old_uid new_uid : String) : Option (List Entry) :=
  match cache with
  | [] => none
  | e :: rest =>
    if e.uid == old_uid then some ({ e with uid := new_uid } :: rest)
    else
      match renameFirst rest old_uid new_uid with
      | some rest2 => some (e :: rest2)
      | none => none

/-- change_uid_entry from the source: first loop checks whether any
entry already carries new_uid and fails with NEW_UID_EXISTS; second
loop renames the first entry carrying old_uid in place and succeeds
(triggering the background sync); otherwise OLD_UID_NOT_FOUND.
Result: (cache after the call, success flag, status string). -/
def change_uid_entry (cache : List Entry) (old_uid new_uid : String) : List Entry × Bool × String :=
  if cache.any (fun e => e.uid == new_uid) then
    (cache, false, "NEW_UID_EXISTS")
  else
    match renameFirst cache old_uid new_uid with
    | some newCache => (newCache, true, "SUCCESS")
    | none => (cache, false, "OLD_UID_NOT_FOUND")

/-- One registry mutation, as dispatched by the modal handlers. -/
inductive RegOp where
  | addOp (uid expiry comment : String)
  | removeOp (uid : String)
  | renameOp (old_uid new_uid : String)
  deriving Repr, DecidableEq

/-- Apply one registry mutation to the cache state. -/
def applyOp (cache : List Entry) : RegOp → List Entry
  | .addOp u e c => add_uid_entry cache u e c
  | .removeOp u => (remove_uid_entry cache u).1
  | .renameOp o n => (change_uid_entry cache o n).1

/-- Run a sequence of registry mutations from the empty cache, the
initial value of WHITELIST_CACHE. -/
def runOps (ops : List RegOp) : List Entry :=
  ops.foldl applyOp []

/-- Key uniqueness: no two entries of the cache share a uid. -/
def UniqueKeys (cache : List Entry) : Prop :=
  (cache.map Entry.uid).Nodup

/-- The parsed JSON body of a backing store GET, as far as the source
inspects it: isinstance(data, list) for the whitelist,
isinstance(data, dict) for the points, anything else. -/
inductive JsonDoc where
  | arr (entries : List Entry)
  | obj (points : PointsCache)
  | other
  deriving Repr

/-- Outcome of one requests.get round trip: the request itself raised
(network error), or a response arrived with a status code and a body;
body none means response.json() raised (parse error, only reachable
on the status 200 branch of the source). -/
inductive PullOutcome where
  | netError
  | httpResponse (status : Nat) (body : Option JsonDoc)
  deriving Repr

/-- load_cache_from_jsonbin from the source, with the prior
WHITELIST_CACHE passed explicitly: on status 200 the cache becomes
the parsed list, or [] when the body is not a list, and True is
returned; any other status, a raised network error or a raised parse
error leaves the cache untouched and returns False (the except branch
only prints).  The CACHE_LOADED flag is not modelled: no claim
mentions it. -/
def load_cache_from_jsonbin (prior : List Entry) (out : PullOutcome) : List Entry × Bool :=
  match out with
  | .netError => (prior, false)
  | .httpResponse status body =>
    if status == 200 then
      match body with
      | none => (prior, false)
      | some (.arr data) => (data, true)
      | some _ => ([], true)
    else (prior, false)

/-- load_points_from_storage from the source, with the prior
POINTS_CACHE passed explicitly: on status 200 the cache becomes the
parsed dict, or {} when the body is not a dict, and True is returned;
any other status or raised error leaves the cache untouched and
returns False. -/
def load_points_from_storage (prior : PointsCache) (out : PullOutcome) : PointsCache × Bool :=
  match out with
  | .netError => (prior, false)
  | .httpResponse status body =>
    if status == 200 then
      match body with
      | none => (prior, false)
      | some (.obj data) => (data, true)
      | some _ => ([], true)
    else (prior, false)

/-- A pull failed: the request or the parse raised, or the status was
not 200. -/
def PullFailed : PullOutcome → Prop
  | .netError => True
  | .httpResponse status body => status ≠ 200 ∨ body = none

/-- Every balance stored in the points cache is non-negative. -/
def NonNegLedger (c : PointsCache) : Prop :=
  ∀ p ∈ c, 0 ≤ p.2

/-- C9: the pricing rule is linear with the fixed rate of 5 points
per day: price d = d * 5 and price (2 * d) = 2 * price d. -/
theorem c9_price_linear (d : Int) :
    calculate_points_needed d = d * 5 ∧
    calculate_points_needed (2 * d) = 2 * calculate_points_needed d := by
  refine ⟨rfl, ?_⟩
  simp only [calculate_points_needed, POINTS_PER_DAY]
  ring

theorem get_user_points_dictSet_self (c : PointsCache) (u : String) (v : Int) :
    get_user_points (dictSet c u v) u = v := by
  induction c with
  | nil => simp [dictSet, get_user_points]
  | cons p rest ih =>
    by_cases h : p.1 == u
    · simp [dictSet, h, get_user_points]
    · simp only [dictSet, h, if_false, Bool.false_eq_true]
      simp only [get_user_points, List.find?_cons, h] at ih ⊢
      exact ih

/-- C2: deduct_user_points reads the current balance, defaulting to 0
for an unknown account; when current < amount it returns failure with
the unchanged current balance, mutates nothing and triggers no sync;
otherwise it returns success with current - amount, that reduced
balance being stored, and triggers the sync. -/
theorem c2_deduct_spec (c : PointsCache) (u : String) (amount : Int) :
    (c.find? (fun p => p.1 == u) = none → get_user_points c u = 0)
  ∧ (get_user_points c u < amount →
      deduct_user_points c u amount =
        { cache := c, success := false, balance := get_user_points c u, synced := false })
  ∧ (amount ≤ get_user_points c u →
      (deduct_user_points c u amount).success = true
    ∧ (deduct_user_points c u amount).balance = get_user_points c u - amount
    ∧ get_user_points (deduct_user_points c u amount).cache u = get_user_points c u - amount
    ∧ (deduct_user_points c u amount).synced = true) := by
  refine ⟨?_, ?_, ?_⟩
  · intro h
    simp [get_user_points, h]
  · intro h
    simp [deduct_user_points, h]
  · intro h
    have hlt : ¬ get_user_points c u < amount := not_lt.mpr h
    refine ⟨by simp [deduct_user_points, hlt], by simp [deduct_user_points, hlt], ?_,
      by simp [deduct_user_points, hlt]⟩
    simp only [deduct_user_points, hlt, if_false]
    exact get_user_points_dictSet_self c u _

theorem c2_deduct_spec_witness :
    (([("b", 9)] : PointsCache).find? (fun p => p.1 == "a") = none ∧
      get_user_points [("b", 9)] "a" = 0)
  ∧ (get_user_points [("a", 3)] "a" < 5 ∧
      deduct_user_points [("a", 3)] "a" 5 =
        { cache := [("a", 3)], success := false, balance := 3, synced := false })
  ∧ (5 ≤ get_user_points [("a", 7)] "a" ∧
      (deduct_user_points [("a", 7)] "a" 5).success = true
    ∧ (deduct_user_points [("a", 7)] "a" 5).balance = 2
    ∧ get_user_points (deduct_user_points [("a", 7)] "a" 5).cache "a" = 2
    ∧ (deduct_user_points [("a", 7)] "a" 5).synced = true) := by
  refine ⟨⟨by decide, (c2_deduct_spec [("b", 9)] "a" 5).1 (by decide)⟩,
          ⟨by decide, (c2_deduct_spec [("a", 3)] "a" 5).2.1 (by decide)⟩,
          ⟨by decide, ?_⟩⟩
  have h := (c2_deduct_spec [("a", 7)] "a" 5).2.2 (by decide)
  exact ⟨h.1, by rw [h.2.1]; decide, by rw [h.2.2.1]; decide, h.2.2.2⟩

theorem mem_dictSet (c : PointsCache) (u : String) (v : Int) (q : String × Int)
    (hq : q ∈ dictSet c u v) : q = (u, v) ∨ q ∈ c := by
  induction c with
  | nil => simp [dictSet] at hq; simp [hq]
  | cons p rest ih =>
    by_cases h : p.1 == u
    · simp [dictSet, h] at hq
      rcases hq with hq | hq
      · exact Or.inl (by simp [hq])
      · exact Or.inr (List.mem_cons_of_mem p hq)
    · simp only [dictSet, h, if_false, Bool.false_eq_true, List.mem_cons] at hq
      rcases hq with hq | hq
      · exact Or.inr (by simp [hq])
      · rcases ih hq with h2 | h2
        · exact Or.inl h2
        · exact Or.inr (List.mem_cons_of_mem p h2)

theorem get_user_points_nonneg (c : PointsCache) (u : String)
    (hc : NonNegLedger c) : 0 ≤ get_user_points c u := by
  unfold get_user_points
  cases hf : c.find? (fun p => p.1 == u) with
  | none => simp
  | some p => exact hc p (List.mem_of_find?_eq_some hf)

theorem dictSet_nonneg (c : PointsCache) (u : String) (v : Int)
    (hc : NonNegLedger c) (hv : 0 ≤ v) : NonNegLedger (dictSet c u v) := by
  intro q hq
  rcases mem_dictSet c u v q hq with h | h
  · rw [h]; exact hv
  · exact hc q h

/-- C3: starting from a ledger whose stored balances are all
non-negative, a credit with positive amount and a debit with any
amount (successful or not) leave every stored balance non-negative;
in particular a debit never drives a balance below zero. -/
theorem c3_balances_nonneg (c : PointsCache) (u : String) (amount : Int)
    (hc : NonNegLedger c) :
    (0 < amount → NonNegLedger (add_user_points c u amount).cache)
  ∧ NonNegLedger (deduct_user_points c u amount).cache := by
  constructor
  · intro hamt
    have hcur : 0 ≤ get_user_points c u := get_user_points_nonneg c u hc
    simp only [add_user_points]
    exact dictSet_nonneg c u _ hc (by linarith)
  · by_cases hlt : get_user_points c u < amount
    · simpa [deduct_user_points, hlt] using hc
    · have hcur : amount ≤ get_user_points c u := not_lt.mp hlt
      simp only [deduct_user_points, hlt, if_false]
      exact dictSet_nonneg c u _ hc (by linarith)

theorem c3_balances_nonneg_witness :
    NonNegLedger (add_user_points [("a", 3)] "a" 2).cache
  ∧ NonNegLedger (deduct_user_points [("a", 3)] "a" 5).cache := by
  have hc : NonNegLedger [("a", (3 : Int))] := by
    unfold NonNegLedger; decide
  exact ⟨(c3_balances_nonneg [("a", 3)] "a" 2 hc).1 (by decide),
         (c3_balances_nonneg [("a", 3)] "a" 5 hc).2⟩

theorem map_uid_add_uid_entry (c : List Entry) (u ex m : String) :
    (add_uid_entry c u ex m).map Entry.uid =
      if u ∈ c.map Entry.uid then c.map Entry.uid else c.map Entry.uid ++ [u] := by
  induction c with
  | nil => simp [add_uid_entry]
  | cons a rest ih =>
    by_cases h : a.uid == u
    · have h2 : a.uid = u := by simpa using h
      simp [add_uid_entry, h, h2]
    · have h2 : ¬ a.uid = u := by simpa using h
      have h3 : ¬ u = a.uid := fun he => h2 he.symm
      by_cases hm : u ∈ rest.map Entry.uid
      · simp [add_uid_entry, h, hm, ih, h3]
      · simp [add_uid_entry, h, hm, ih, h3]

theorem add_preserves_unique (c : List Entry) (u ex m : String)
    (h : UniqueKeys c) : UniqueKeys (add_uid_entry c u ex m) := by
  unfold UniqueKeys at *
  rw [map_uid_add_uid_entry]
  by_cases hm : u ∈ c.map Entry.uid
  · simpa [hm] using h
  · simp [hm, List.nodup_append, h]

theorem remove_preserves_unique (c : List Entry) (u : String)
    (h : UniqueKeys c) : UniqueKeys (remove_uid_entry c u).1 := by
  unfold UniqueKeys remove_uid_entry at *
  exact List.Nodup.sublist (List.Sublist.map Entry.uid (List.filter_sublist c)) h

theorem renameFirst_some (c : List Entry) (o n : String) (c2 : List Entry)
    (h : renameFirst c o n = some c2) :
    ∃ l1 e l2, c = l1 ++ e :: l2 ∧ e.uid = o ∧ (∀ x ∈ l1, x.uid ≠ o)
      ∧ c2 = l1 ++ { e with uid := n } :: l2 := by
  induction c generalizing c2 with
  | nil => simp [renameFirst] at h
  | cons a rest ih =>
    by_cases ha : a.uid == o
    · have ha2 : a.uid = o := by simpa using ha
      simp only [renameFirst, ha, if_true] at h
      refine ⟨[], a, rest, by simp, ha2, by simp, ?_⟩
      simpa using h.symm
    · have ha2 : ¬ a.uid = o := by simpa using ha
      simp only [renameFirst, ha, Bool.false_eq_true, if_false] at h
      cases hr : renameFirst rest o n with
      | none => rw [hr] at h; simp at h
      | some r2 =>
        rw [hr] at h
        obtain ⟨l1, e, l2, hc, he, hl1, hc2⟩ := ih r2 hr
        refine ⟨a :: l1, e, l2, by simp [hc], he, ?_, ?_⟩
        · intro x hx
          rcases List.mem_cons.mp hx with hx | hx
          · rw [hx]; exact ha2
          · exact hl1 x hx
        · have hc2a : c2 = a :: r2 := by simpa using h.symm
          simp [hc2a, hc2]

theorem renameFirst_eq_none (c : List Entry) (o n : String)
    (h : ∀ e ∈ c, e.uid ≠ o) : renameFirst c o n = none := by
  induction c with
  | nil => rfl
  | cons a rest ih =>
    have ha : ¬ (a.uid == o) = true := by simp [h a (by simp)]
    have ih2 : renameFirst rest o n = none :=
      ih (fun e he => h e (List.mem_cons_of_mem a he))
    simp [renameFirst, ha, ih2]

theorem change_preserves_unique (c : List Entry) (o n : String)
    (h : UniqueKeys c) : UniqueKeys (change_uid_entry c o n).1 := by
  unfold change_uid_entry
  by_cases hany : c.any (fun e => e.uid == n)
  · simpa [hany] using h
  · have hn : ∀ x ∈ c, x.uid ≠ n := by
      intro x hx hxx
      exact hany (List.any_eq_true.mpr ⟨x, hx, by simp [hxx]⟩)
    cases hr : renameFirst c o n with
    | none => simpa [hany, hr] using h
    | some c2 =>
      simp only [hany, Bool.false_eq_true, if_false, hr]
      obtain ⟨l1, e, l2, hc, he, hl1, hc2⟩ := renameFirst_some c o n c2 hr
      unfold UniqueKeys at *
      rw [hc] at h hn
      rw [hc2]
      simp only [List.map_append, List.map_cons] at h ⊢
      rw [List.nodup_middle] at h ⊢
      rw [List.nodup_cons] at h ⊢
      refine ⟨?_, h.2⟩
      intro hmem
      rcases List.mem_append.mp hmem with hm | hm
      · rcases List.mem_map.mp hm with ⟨x, hx, hxu⟩
        exact hn x (List.mem_append.mpr (Or.inl hx)) hxu
      · rcases List.mem_map.mp hm with ⟨x, hx, hxu⟩
        exact hn x (by simp [hx]) hxu

theorem applyOp_preserves_unique (c : List Entry) (op : RegOp)
    (h : UniqueKeys c) : UniqueKeys (applyOp c op) := by
  cases op with
  | addOp u ex m => exact add_preserves_unique c u ex m h
  | removeOp u => exact remove_preserves_unique c u h
  | renameOp o n => exact change_preserves_unique c o n h

theorem foldl_preserves_unique (ops : List RegOp) (c : List Entry)
    (h : UniqueKeys c) : UniqueKeys (ops.foldl applyOp c) := by
  induction ops generalizing c with
  | nil => exact h
  | cons op rest ih => exact ih _ (applyOp_preserves_unique c op h)

/-- C1: after every sequence of add, remove and rename operations
starting from the empty cache, no two entries share a uid; since
every intermediate point of a sequence is itself the final point of
a shorter sequence, the invariant holds at every observation point. -/
theorem c1_unique_keys (ops : List RegOp) : UniqueKeys (runOps ops) :=
  foldl_preserves_unique ops [] (by unfold UniqueKeys; simp)

/-- C4: when an entry with new_uid already exists, change_uid_entry
fails with NEW_UID_EXISTS (the Collision reason) and returns the
collection unchanged; when no entry has new_uid but none has old_uid
either, it fails with OLD_UID_NOT_FOUND (the NotFound reason) and
returns the collection unchanged. -/
theorem c4_rename_failures (cache : List Entry) (o n : String) :
    ((∃ e ∈ cache, e.uid = n) →
      change_uid_entry cache o n = (cache, false, "NEW_UID_EXISTS"))
  ∧ ((∀ e ∈ cache, e.uid ≠ n) → (∀ e ∈ cache, e.uid ≠ o) →
      change_uid_entry cache o n = (cache, false, "OLD_UID_NOT_FOUND")) := by
  constructor
  · rintro ⟨e, he, heq⟩
    have hany : cache.any (fun x => x.uid == n) = true :=
      List.any_eq_true.mpr ⟨e, he, by simp [heq]⟩
    simp [change_uid_entry, hany]
  · intro hn ho
    have hany : ¬ cache.any (fun x => x.uid == n) = true := by
      intro hc
      rcases List.any_eq_true.mp hc with ⟨e, he, heq⟩
      exact hn e he (by simpa using heq)
    have hrf := renameFirst_eq_none cache o n ho
    simp [change_uid_entry, hany, hrf]

theorem c4_rename_failures_witness :
    ((∃ e ∈ ([⟨"B", "2025-01-01", "x"⟩] : List Entry), e.uid = "B") ∧
      change_uid_entry [⟨"B", "2025-01-01", "x"⟩] "A" "B"
        = ([⟨"B", "2025-01-01", "x"⟩], false, "NEW_UID_EXISTS"))
  ∧ change_uid_entry [⟨"B", "2025-01-01", "x"⟩] "A" "C"
        = ([⟨"B", "2025-01-01", "x"⟩], false, "OLD_UID_NOT_FOUND") :=
  ⟨⟨by decide, (c4_rename_failures [⟨"B", "2025-01-01", "x"⟩] "A" "B").1 (by decide)⟩,
   (c4_rename_failures [⟨"B", "2025-01-01", "x"⟩] "A" "C").2 (by decide) (by decide)⟩

/-- C5: when the backing store pull fails (the request raised, the
status is not 200, or the body parse raised) load_cache_from_jsonbin
returns False and the prior cache content is completely unchanged. -/
theorem c5_reload_failure_keeps_cache (prior : List Entry) (out : PullOutcome)
    (h : PullFailed out) :
    load_cache_from_jsonbin prior out = (prior, false) := by
  cases out with
  | netError => rfl
  | httpResponse status body =>
    rcases h with hs | hb
    · have h2 : ¬ (status == 200) = true := by simpa using hs
      simp [load_cache_from_jsonbin, h2]
    · subst hb
      by_cases h2 : (status == 200) = true <;>
        simp [load_cache_from_jsonbin, h2]

theorem c5_reload_failure_keeps_cache_witness :
    PullFailed (.httpResponse 500 none)
  ∧ load_cache_from_jsonbin [⟨"A", "2025-01-01", "x"⟩] (.httpResponse 500 none)
      = ([⟨"A", "2025-01-01", "x"⟩], false) :=
  ⟨Or.inr rfl,
   c5_reload_failure_keeps_cache [⟨"A", "2025-01-01", "x"⟩] (.httpResponse 500 none)
     (Or.inr rfl)⟩

/-- C6 counterexample: with a non-empty prior cache and a non-success
status (500), the collection after the entries load is NOT empty: the
source leaves the prior cache untouched on a non-success status
instead of treating the result as an empty collection. -/
theorem c6_load_counterexample :
    (load_cache_from_jsonbin [⟨"A", "2025-01-01", "x"⟩]
        (.httpResponse 500 (some .other))).1 ≠ [] := by
  decide

/-- C6 amended: on a 200 response whose body is not of the expected
shape (not a list for entries, not a dict for balances) the cache is
replaced by the empty collection and success is returned; a
non-success status, a raised network error or a raised parse error
(body none, at any status) leaves the cache unchanged and returns
False, for both loaders; in all cases the loaders are total
functions returning a boolean, never propagating an exception. -/
theorem c6_amended_load_behavior (priorE : List Entry) (priorP : PointsCache)
    (status : Nat) (body : JsonDoc) :
    ((∀ l, body ≠ JsonDoc.arr l) →
      load_cache_from_jsonbin priorE (.httpResponse 200 (some body)) = ([], true))
  ∧ ((∀ m, body ≠ JsonDoc.obj m) →
      load_points_from_storage priorP (.httpResponse 200 (some body)) = ([], true))
  ∧ (status ≠ 200 →
      load_cache_from_jsonbin priorE (.httpResponse status (some body)) = (priorE, false)
    ∧ load_points_from_storage priorP (.httpResponse status (some body)) = (priorP, false))
  ∧ (load_cache_from_jsonbin priorE (.httpResponse status none) = (priorE, false)
    ∧ load_points_from_storage priorP (.httpResponse status none) = (priorP, false))
  ∧ (load_cache_from_jsonbin priorE PullOutcome.netError = (priorE, false)
    ∧ load_points_from_storage priorP PullOutcome.netError = (priorP, false)) := by
  refine ⟨?_, ?_, ?_, ?_, rfl, rfl⟩
  · intro hb
    cases body with
    | arr l => exact absurd rfl (hb l)
    | obj m => simp [load_cache_from_jsonbin]
    | other => simp [load_cache_from_jsonbin]
  · intro hb
    cases body with
    | obj m => exact absurd rfl (hb m)
    | arr l => simp [load_points_from_storage]
    | other => simp [load_points_from_storage]
  · intro hs
    have h2 : ¬ (status == 200) = true := by simpa using hs
    exact ⟨by simp [load_cache_from_jsonbin, h2],
           by simp [load_points_from_storage, h2]⟩
  · by_cases h2 : (status == 200) = true <;>
      exact ⟨by simp [load_cache_from_jsonbin, h2],
             by simp [load_points_from_storage, h2]⟩

theorem c6_amended_load_behavior_witness :
    load_cache_from_jsonbin [⟨"A", "d", "c"⟩] (.httpResponse 200 (some .other)) = ([], true)
  ∧ load_points_from_storage [("a", 3)] (.httpResponse 200 (some .other)) = ([], true)
  ∧ load_cache_from_jsonbin [⟨"A", "d", "c"⟩] (.httpResponse 500 (some .other))
      = ([⟨"A", "d", "c"⟩], false)
  ∧ load_cache_from_jsonbin [⟨"A", "d", "c"⟩] (.httpResponse 200 none)
      = ([⟨"A", "d", "c"⟩], false)
  ∧ load_points_from_storage [("a", 3)] (.httpResponse 200 none) = ([("a", 3)], false) := by
  have h := c6_amended_load_behavior [⟨"A", "d", "c"⟩] [("a", 3)] 500 JsonDoc.other
  have h200 := c6_amended_load_behavior [⟨"A", "d", "c"⟩] [("a", 3)] 200 JsonDoc.other
  exact ⟨h.1 (fun l hl => nomatch hl), h.2.1 (fun m hm => nomatch hm),
         (h.2.2.1 (by decide)).1, h200.2.2.2.1.1, h200.2.2.2.1.2⟩

/-- C7 counterexample: a debit whose amount is the non-positive -5 is
not rejected: on balance 10 it returns success, mutates the stored
balance to 15 and triggers the sync; likewise a credit of -5 mutates
the stored balance to 5.  Neither ledger function validates the
amount; the non-positive checks in the source live in the Discord
handlers, before these functions are called. -/
theorem c7_counterexample :
    (deduct_user_points [("u", 10)] "u" (-5)).success = true
  ∧ get_user_points (deduct_user_points [("u", 10)] "u" (-5)).cache "u" = 15
  ∧ (deduct_user_points [("u", 10)] "u" (-5)).synced = true
  ∧ get_user_points (add_user_points [("u", 10)] "u" (-5)).cache "u" = 5 := by
  decide

/-- C7 amended: add_user_points and deduct_user_points themselves
perform no InvalidInput rejection; a call with non-positive amount
proceeds to mutate the stored balance (the credit stores
current + amount unconditionally, and the debit succeeds and stores
current - amount whenever the current balance is non-negative, which
with amount of at most 0 is always the case).  The non-positive-amount
rejection happens only in the interactive handlers before these
functions are invoked. -/
theorem c7_amended_no_validation (c : PointsCache) (u : String) (amount : Int)
    (hamt : amount ≤ 0) :
    (add_user_points c u amount).synced = true
  ∧ get_user_points (add_user_points c u amount).cache u = get_user_points c u + amount
  ∧ (0 ≤ get_user_points c u →
      (deduct_user_points c u amount).success = true
    ∧ get_user_points (deduct_user_points c u amount).cache u = get_user_points c u - amount
    ∧ (deduct_user_points c u amount).synced = true) := by
  refine ⟨rfl, get_user_points_dictSet_self c u _, ?_⟩
  intro h0
  have hlt : ¬ get_user_points c u < amount := not_lt.mpr (le_trans hamt h0)
  refine ⟨by simp [deduct_user_points, hlt], ?_, by simp [deduct_user_points, hlt]⟩
  simp only [deduct_user_points, hlt, if_false]
  exact get_user_points_dictSet_self c u _

theorem c7_amended_no_validation_witness :
    get_user_points (add_user_points [("u", 10)] "u" (-5)).cache "u" = 5
  ∧ (deduct_user_points [("u", 10)] "u" (-5)).success = true
  ∧ get_user_points (deduct_user_points [("u", 10)] "u" (-5)).cache "u" = 15 := by
  have h := c7_amended_no_validation [("u", 10)] "u" (-5) (by decide)
  have h2 := h.2.2 (by decide)
  exact ⟨by rw [h.2.1]; decide, h2.1, by rw [h2.2.1]; decide⟩

/-- C8: on a cache with unique keys, a successful rename produces the
cache in which exactly the one entry that carried old_uid has its uid
field set to new_uid, with its expiry_date and comment fields
preserved, and every other entry (before and after it) literally
unchanged. -/
theorem c8_rename_frame (cache : List Entry) (o n : String)
    (hu : UniqueKeys cache) (hs : (change_uid_entry cache o n).2.1 = true) :
    ∃ l1 e l2, cache = l1 ++ e :: l2 ∧ e.uid = o
      ∧ (∀ x ∈ l1, x.uid ≠ o) ∧ (∀ x ∈ l2, x.uid ≠ o)
      ∧ (change_uid_entry cache o n).1
          = l1 ++ { uid := n, expiry_date := e.expiry_date, comment := e.comment } :: l2 := by
  by_cases hany : cache.any (fun x => x.uid == n)
  · simp [change_uid_entry, hany] at hs
  · cases hr : renameFirst cache o n with
    | none => simp [change_uid_entry, hany, hr] at hs
    | some c2 =>
      obtain ⟨l1, e, l2, hc, he, hl1, hc2⟩ := renameFirst_some cache o n c2 hr
      refine ⟨l1, e, l2, hc, he, hl1, ?_, ?_⟩
      · unfold UniqueKeys at hu
        rw [hc] at hu
        simp only [List.map_append, List.map_cons] at hu
        rw [List.nodup_middle, List.nodup_cons] at hu
        intro x hx hxo
        exact hu.1 (List.mem_append.mpr (Or.inr
          (List.mem_map.mpr ⟨x, hx, by rw [hxo, he]⟩)))
      · simp [change_uid_entry, hany, hr, hc2]

theorem c8_rename_frame_witness :
    ∃ l1 e l2,
      ([⟨"A", "2025-01-01", "x"⟩, ⟨"B", "2026-01-01", "y"⟩] : List Entry) = l1 ++ e :: l2
    ∧ e.uid = "A" ∧ (∀ x ∈ l1, x.uid ≠ "A") ∧ (∀ x ∈ l2, x.uid ≠ "A")
    ∧ (change_uid_entry [⟨"A", "2025-01-01", "x"⟩, ⟨"B", "2026-01-01", "y"⟩] "A" "C").1
        = l1 ++ { uid := "C", expiry_date := e.expiry_date, comment := e.comment } :: l2 :=
  c8_rename_frame [⟨"A", "2025-01-01", "x"⟩, ⟨"B", "2026-01-01", "y"⟩] "A" "C"
    (by unfold UniqueKeys; decide) (by decide)

/-- C10: when the cache already holds several entries with the same
uid (reachable only by loading such data from the backing store),
add_uid_entry replaces exactly the first matching entry and leaves
every later duplicate unchanged, and get_uid_entry returns a copy of
the first matching entry. -/
theorem c10_duplicate_keys (l1 l2 : List Entry) (e1 : Entry) (u ex m : String)
    (he1 : e1.uid = u) (hl1 : ∀ x ∈ l1, x.uid ≠ u) (_hdup : ∃ x ∈ l2, x.uid = u) :
    add_uid_entry (l1 ++ e1 :: l2) u ex m
        = l1 ++ { uid := u, expiry_date := ex, comment := m } :: l2
  ∧ get_uid_entry (l1 ++ e1 :: l2) u = some e1 := by
  induction l1 with
  | nil =>
    have h : (e1.uid == u) = true := by simp [he1]
    constructor <;> simp [add_uid_entry, get_uid_entry, h]
  | cons a rest ih =>
    have ha : ¬ (a.uid == u) = true := by simp [hl1 a (by simp)]
    have ih2 := ih (fun x hx => hl1 x (List.mem_cons_of_mem a hx))
    constructor
    · simp only [List.cons_append, add_uid_entry, ha, Bool.false_eq_true, if_false]
      exact congrArg (List.cons a) ih2.1
    · simp only [List.cons_append, get_uid_entry, ha, Bool.false_eq_true, if_false]
      exact ih2.2

theorem c10_duplicate_keys_witness :
    add_uid_entry [⟨"A", "d1", "c1"⟩, ⟨"A", "d2", "c2"⟩] "A" "d3" "c3"
        = [⟨"A", "d3", "c3"⟩, ⟨"A", "d2", "c2"⟩]
  ∧ get_uid_entry [⟨"A", "d1", "c1"⟩, ⟨"A", "d2", "c2"⟩] "A" = some ⟨"A", "d1", "c1"⟩ :=
  c10_duplicate_keys [] [⟨"A", "d2", "c2"⟩] ⟨"A", "d1", "c1"⟩ "A" "d3" "c3"
    (by decide) (by decide) (by decide)
